import Mathlib

/-!
Shallow embedding of the signature-extraction core of `ecdsa-dump-bitcoin`
(`src/callbacks/sigdump.rs`, `src/blockchain/proto/tx.rs`), together with
spec-modelled definitions for the small leaf components whose sources are
not part of this snapshot (the varint codec, the hex helpers, SHA-256).
Machine integers are modelled as `Nat` with explicit `% 2^w` where the Rust
code can wrap or truncate; byte strings are `List Nat` whose elements are
byte values; fallible or panicking code returns `Option`.
-/

namespace EcdsaDump

/-- Bytes are modelled as natural numbers (`u8` values are `< 256`). -/
abbrev Byte := Nat

/-- Little-endian encoding of a `u16` (Rust `u16::to_le_bytes`). -/
def u16le (n : Nat) : List Byte :=
  [n % 256, n / 2 ^ 8 % 256]

/-- Little-endian encoding of a `u32` (Rust `u32::to_le_bytes`). -/
def u32le (n : Nat) : List Byte :=
  [n % 256, n / 2 ^ 8 % 256, n / 2 ^ 16 % 256, n / 2 ^ 24 % 256]

/-- Little-endian encoding of a `u64` (Rust `u64::to_le_bytes`). -/
def u64le (n : Nat) : List Byte :=
  [n % 256, n / 2 ^ 8 % 256, n / 2 ^ 16 % 256, n / 2 ^ 24 % 256,
   n / 2 ^ 32 % 256, n / 2 ^ 40 % 256, n / 2 ^ 48 % 256, n / 2 ^ 56 % 256]

/-- Big-endian encoding of a `u64` (used by SHA-256 length padding). -/
def u64be (n : Nat) : List Byte :=
  [n / 2 ^ 56 % 256, n / 2 ^ 48 % 256, n / 2 ^ 40 % 256, n / 2 ^ 32 % 256,
   n / 2 ^ 24 % 256, n / 2 ^ 16 % 256, n / 2 ^ 8 % 256, n % 256]

/-- Modelled from the spec: `blockchain/proto/varuint.rs` (not in this
snapshot) wraps a `u64` value; spec 4.1 fixes the codec. -/
structure VarUint where
  value : Nat
deriving DecidableEq, Repr

/-- Modelled from the spec: Bitcoin varint encoding, 4.1: values below `0xFD`
take one byte; otherwise a `0xFD`/`0xFE`/`0xFF` marker followed by the value
as a 16-, 32- or 64-bit little-endian integer. -/
def VarUint.to_bytes (v : VarUint) : List Byte :=
  if v.value < 0xFD then [v.value]
  else if v.value ≤ 0xFFFF then 0xFD :: u16le v.value
  else if v.value ≤ 0xFFFFFFFF then 0xFE :: u32le v.value
  else 0xFF :: u64le v.value

/-- `TxOutpoint` from `tx.rs`: 32-byte prior txid (stored order) and `u32`
output index. -/
structure TxOutpoint where
  txid : List Byte
  index : Nat
deriving DecidableEq, Repr

/-- `TxOutpoint::to_bytes`: txid bytes (stored order, not swapped) followed by
the 4-byte little-endian index. -/
def TxOutpoint.to_bytes (o : TxOutpoint) : List Byte :=
  o.txid ++ u32le o.index

/-- `TxInput` from `tx.rs`. -/
structure TxInput where
  outpoint : TxOutpoint
  script_len : VarUint
  script_sig : List Byte
  seq_no : Nat
deriving DecidableEq, Repr

/-- `TxInput::to_bytes`: outpoint bytes, varint script length, script bytes,
4-byte little-endian sequence number. -/
def TxInput.to_bytes (i : TxInput) : List Byte :=
  i.outpoint.to_bytes ++ i.script_len.to_bytes ++ i.script_sig ++ u32le i.seq_no

/-- `TxOutput` from `tx.rs`. -/
structure TxOutput where
  value : Nat
  script_len : VarUint
  script_pubkey : List Byte
deriving DecidableEq, Repr

/-- `TxOutput::to_bytes`: 8-byte little-endian value, varint script length,
script bytes. -/
def TxOutput.to_bytes (o : TxOutput) : List Byte :=
  u64le o.value ++ o.script_len.to_bytes ++ o.script_pubkey

/-- Modelled from the spec: the script classifier's result
(`blockchain/proto/script.rs` is not in this snapshot). Spec 4.3 / 9: a
tagged variant with the case `ScriptSig(sig_bytes, pubkey_bytes)` for the
"push signature, push public key" pattern, and a catch-all the driver
ignores. -/
inductive ScriptPattern where
  | scriptSig (sig : List Byte) (pubkey : List Byte)
  | other
deriving DecidableEq, Repr

/-- Modelled from the spec: the evaluated-script wrapper produced by the
classifier; only its `pattern` field is read by the core. -/
structure EvaluatedScript where
  pattern : ScriptPattern
deriving DecidableEq, Repr

/-- `EvaluatedTxIn` from `tx.rs`: classifier result plus the raw input. -/
structure EvaluatedTxIn where
  script : EvaluatedScript
  input : TxInput
deriving DecidableEq, Repr

/-- `EvaluatedTxOut` from `tx.rs`; the evaluated script of an output is never
read by the signature core, so only the raw output is modelled. -/
structure EvaluatedTxOut where
  out : TxOutput
deriving DecidableEq, Repr

/-- `EvaluatedTx` from `tx.rs`. -/
structure EvaluatedTx where
  version : Nat
  in_count : VarUint
  inputs : List EvaluatedTxIn
  out_count : VarUint
  outputs : List EvaluatedTxOut
  locktime : Nat
deriving DecidableEq, Repr

/-- `EvaluatedTx::to_bytes`: the Rust code pushes version, input-count varint,
each input's bytes in order, output-count varint, each output's bytes in
order, then locktime, onto one growing vector; the vector is modelled by a
left fold that appends. -/
def EvaluatedTx.to_bytes (tx : EvaluatedTx) : List Byte :=
  let bytes := u32le tx.version
  let bytes := bytes ++ tx.in_count.to_bytes
  let bytes := tx.inputs.foldl (fun acc i => acc ++ i.input.to_bytes) bytes
  let bytes := bytes ++ tx.out_count.to_bytes
  let bytes := tx.outputs.foldl (fun acc o => acc ++ o.out.to_bytes) bytes
  bytes ++ u32le tx.locktime

/-- `EvaluatedTx::is_coinbase`: exactly one input (per the stored `in_count`)
whose outpoint is the all-zero txid with index `0xFFFFFFFF`.  The source
unwraps `inputs.first()`, which panics when `in_count` is 1 but the input
list is empty; that unreachable case is mapped to `false`. -/
def EvaluatedTx.is_coinbase (tx : EvaluatedTx) : Bool :=
  if tx.in_count.value = 1 then
    match tx.inputs.head? with
    | some input =>
        input.input.outpoint.txid == List.replicate 32 0 &&
          input.input.outpoint.index == 0xFFFFFFFF
    | none => false
  else false

/-- `Hashed<T>` from the block model: a value together with its precomputed
32-byte hash. -/
structure Hashed (T : Type) where
  hash : List Byte
  value : T

/-- Modelled from the spec: the block header fields delivered by the upstream
parser (spec 6); the core reads only `timestamp`. -/
structure BlockHeader where
  version : Nat
  prev_hash : List Byte
  merkle_root : List Byte
  timestamp : Nat
  bits : Nat
  nonce : Nat

/-- Modelled from the spec: a parsed block as delivered to the driver
(spec 6): hashed header, transaction-count varint, transactions each carrying
their txid. -/
structure Block where
  header : Hashed BlockHeader
  tx_count : VarUint
  txs : List (Hashed EvaluatedTx)

/-! SHA-256.  `utils::sha256` is not in this snapshot; the spec glossary fixes
it as the standard SHA-256 hash (FIPS 180-4), modelled here over byte lists
with 32-bit words as `Nat % 2^32`. -/

/-- Right rotation of a 32-bit word. -/
def rotr32 (n x : Nat) : Nat :=
  ((x >>> n) % 2 ^ 32) ||| ((x <<< (32 - n)) % 2 ^ 32)

/-- SHA-256 big sigma-0. -/
def bSig0 (x : Nat) : Nat := rotr32 2 x ^^^ rotr32 13 x ^^^ rotr32 22 x

/-- SHA-256 big sigma-1. -/
def bSig1 (x : Nat) : Nat := rotr32 6 x ^^^ rotr32 11 x ^^^ rotr32 25 x

/-- SHA-256 small sigma-0. -/
def sSig0 (x : Nat) : Nat := rotr32 7 x ^^^ rotr32 18 x ^^^ (x >>> 3)

/-- SHA-256 small sigma-1. -/
def sSig1 (x : Nat) : Nat := rotr32 17 x ^^^ rotr32 19 x ^^^ (x >>> 10)

/-- SHA-256 choice function. -/
def shaCh (x y z : Nat) : Nat := (x &&& y) ^^^ ((x ^^^ 0xFFFFFFFF) &&& z)

/-- SHA-256 majority function. -/
def shaMaj (x y z : Nat) : Nat := (x &&& y) ^^^ (x &&& z) ^^^ (y &&& z)

/-- SHA-256 round constants (FIPS 180-4, in decimal). -/
def shaK : List Nat :=
  [1116352408, 1899447441, 3049323471, 3921009573, 961987163,
   1508970993, 2453635748, 2870763221, 3624381080, 310598401,
   607225278, 1426881987, 1925078388, 2162078206, 2614888103,
   3248222580, 3835390401, 4022224774, 264347078, 604807628,
   770255983, 1249150122, 1555081692, 1996064986, 2554220882,
   2821834349, 2952996808, 3210313671, 3336571891, 3584528711,
   113926993, 338241895, 666307205, 773529912, 1294757372,
   1396182291, 1695183700, 1986661051, 2177026350, 2456956037,
   2730485921, 2820302411, 3259730800, 3345764771, 3516065817,
   3600352804, 4094571909, 275423344, 430227734, 506948616,
   659060556, 883997877, 958139571, 1322822218, 1537002063,
   1747873779, 1955562222, 2024104815, 2227730452, 2361852424,
   2428436474, 2756734187, 3204031479, 3329325298]

/-- SHA-256 initial hash state (FIPS 180-4, in decimal). -/
def shaH0 : List Nat :=
  [1779033703, 3144134277, 1013904242, 2773480762,
   1359893119, 2600822924, 528734635, 1541459225]

/-- SHA-256 message padding: a `0x80` byte, zeros to 56 mod 64, and the
message bit length as a big-endian `u64`. -/
def shaPad (msg : List Byte) : List Byte :=
  let L := msg.length
  let k := (119 - L % 64) % 64
  msg ++ [0x80] ++ List.replicate k 0 ++ u64be (8 * L)

/-- Group a byte list into big-endian 32-bit words. -/
def beWords : List Byte → List Nat
  | b0 :: b1 :: b2 :: b3 :: rest =>
      ((b0 <<< 24) + (b1 <<< 16) + (b2 <<< 8) + b3) % 2 ^ 32 :: beWords rest
  | _ => []

/-- SHA-256 message schedule: extend the 16 block words to 64. -/
def shaSchedule (ws : List Nat) : List Nat :=
  (List.range 64).foldl
    (fun acc t =>
      if t < 16 then acc ++ [ws.getD t 0]
      else
        acc ++ [(sSig1 (acc.getD (t - 2) 0) + acc.getD (t - 7) 0 +
                 sSig0 (acc.getD (t - 15) 0) + acc.getD (t - 16) 0) % 2 ^ 32])
    []

/-- One SHA-256 compression of a 64-byte block into the running state. -/
def shaCompress (h : List Nat) (block : List Byte) : List Nat :=
  let w := shaSchedule (beWords block)
  let st :=
    (List.range 64).foldl
      (fun (st : Nat × Nat × Nat × Nat × Nat × Nat × Nat × Nat) t =>
        let (a, b, c, d, e, f, g, hh) := st
        let t1 := (hh + bSig1 e + shaCh e f g + shaK.getD t 0 + w.getD t 0) % 2 ^ 32
        let t2 := (bSig0 a + shaMaj a b c) % 2 ^ 32
        ((t1 + t2) % 2 ^ 32, a, b, c, (d + t1) % 2 ^ 32, e, f, g))
      (h.getD 0 0, h.getD 1 0, h.getD 2 0, h.getD 3 0,
       h.getD 4 0, h.getD 5 0, h.getD 6 0, h.getD 7 0)
  let (a, b, c, d, e, f, g, hh) := st
  [(h.getD 0 0 + a) % 2 ^ 32, (h.getD 1 0 + b) % 2 ^ 32,
   (h.getD 2 0 + c) % 2 ^ 32, (h.getD 3 0 + d) % 2 ^ 32,
   (h.getD 4 0 + e) % 2 ^ 32, (h.getD 5 0 + f) % 2 ^ 32,
   (h.getD 6 0 + g) % 2 ^ 32, (h.getD 7 0 + hh) % 2 ^ 32]

/-- Split a byte list into 64-byte chunks, with fuel for structural
recursion (each step consumes at least one element, so the input length is
enough fuel). -/
def chunks64Go : Nat → List Byte → List (List Byte)
  | _, [] => []
  | 0, _ :: _ => []
  | fuel + 1, a :: as => (a :: as).take 64 :: chunks64Go fuel ((a :: as).drop 64)

/-- Split a byte list into 64-byte chunks. -/
def chunks64 (l : List Byte) : List (List Byte) :=
  chunks64Go l.length l

/-- Modelled from the spec: `utils::sha256`, the standard SHA-256 hash of a
byte string (FIPS 180-4), returning 32 bytes. -/
def sha256 (msg : List Byte) : List Byte :=
  let final := (chunks64 (shaPad msg)).foldl shaCompress shaH0
  (final.map (fun w => [w / 2 ^ 24 % 256, w / 2 ^ 16 % 256, w / 2 ^ 8 % 256, w % 256])).flatten

/-! Hex rendering.  `utils::arr_to_hex` and `utils::arr_to_hex_swapped` are
not in this snapshot; spec 6 and 9 fix them: lowercase hex without prefix,
and the swapped variant reverses the byte order (display order). -/

/-- The sixteen lowercase hex digit characters. -/
def hexDigitChars : List Char := "0123456789abcdef".data

/-- Lowercase hex digit for a value below 16. -/
def hexDigit (n : Nat) : Char := hexDigitChars.getD n '0'

/-- Two lowercase hex characters per byte, in order. -/
def hexCharsOf : List Byte → List Char
  | [] => []
  | b :: rest => hexDigit (b / 16 % 16) :: hexDigit (b % 16) :: hexCharsOf rest

/-- Modelled from the spec: `utils::arr_to_hex`, lowercase hex of a byte
string, no prefix. -/
def arr_to_hex (bs : List Byte) : String := ⟨hexCharsOf bs⟩

/-- Modelled from the spec: `utils::arr_to_hex_swapped`, lowercase hex of the
byte-reversed string (display order). -/
def arr_to_hex_swapped (bs : List Byte) : String := ⟨hexCharsOf bs.reverse⟩

/-! The signature decoder.  The source decodes with
`Signature::<NistP256>::from_der` from the external `p256` crate; spec 4.4
fixes its contract.  The raw DER parse is kept abstract as a parameter
`parse`, and the validity filter (reject a zero or out-of-range scalar) is
modelled from the spec on top of it. -/

/-- Order of the NIST P-256 curve group, the curve used by the source's
decoder. -/
def p256Order : Nat :=
  0xffffffff00000000ffffffffffffffffbce6faada7179e84f3b9cac2fc632551

/-- Modelled from the spec: `Signature::<NistP256>::from_der` followed by the
`NonZeroScalar` reads, spec 4.4: parse the DER bytes into the two scalars
(`parse`, the external parser, is a parameter) and fail when the parse fails
or when either scalar is zero or out of range for the curve order. -/
def fromDer (parse : List Byte → Option (Nat × Nat)) (bytes : List Byte) :
    Option (Nat × Nat) :=
  match parse bytes with
  | none => none
  | some (r, s) =>
      if 0 < r ∧ r < p256Order ∧ 0 < s ∧ s < p256Order then some (r, s) else none

/-! The driver, `SigDump` (`src/callbacks/sigdump.rs`).  The external
`BitcoinDB` oracle is a parameter `db` mapping a display-order hex txid to
the list of the prior transaction's output scripts (`None` when the lookup
or the hex/txid conversion fails); the DER parser is the parameter `parse`
above.  Panicking operations return `Option`, with `none` for a panic. -/

/-- `SigDump::get_previous_outputs`: swap the txid into display-order hex and
ask the oracle for the prior transaction's output scripts. -/
def SigDump.get_previous_outputs (db : String → Option (List (List Byte)))
    (previous_txid : List Byte) : Option (List (List Byte)) :=
  db (arr_to_hex_swapped previous_txid)

/-- Subscript selection for the signing input (`sigdump.rs` lines 166-177):
on an oracle hit, `prev_outs[previous_output_index]` indexes without a bounds
guard (`none` models the out-of-range panic); on a miss the subscript is the
empty script. -/
def subscriptFor (db : String → Option (List (List Byte))) (input : TxInput) :
    Option (List Byte) :=
  match SigDump.get_previous_outputs db input.outpoint.txid with
  | some prev_outs => prev_outs.get? input.outpoint.index
  | none => some []

/-- The modified input built per position (`sigdump.rs` lines 155-182): the
outpoint and sequence are copied, the script is empty with zero length; at
the signing position the script becomes the subscript and the length becomes
`VarUint::from(subscript.len() as u8)` — note the `as u8` truncation. -/
def buildModifiedInput (is_signing : Bool) (subscript : List Byte)
    (raw : TxInput) : TxInput :=
  let r_input : TxInput :=
    { outpoint := ⟨raw.outpoint.txid, raw.outpoint.index⟩,
      script_len := ⟨0⟩, script_sig := [], seq_no := raw.seq_no }
  if is_signing then
    { r_input with
      script_len := ⟨subscript.length % 256⟩, script_sig := subscript }
  else r_input

/-- Serialization of a modified input (`sigdump.rs` lines 185-195): outpoint
txid, little-endian outpoint index, varint script length, script bytes,
little-endian sequence. -/
def inputBytes (r_input : TxInput) : List Byte :=
  r_input.outpoint.txid ++ u32le r_input.outpoint.index ++
    r_input.script_len.to_bytes ++ r_input.script_sig ++ u32le r_input.seq_no

/-- The modified-inputs section of the message: the inner loop over all
inputs with its running `raw_input_index`. -/
def modifiedInputsBytes (input_index : Nat) (subscript : List Byte) :
    Nat → List EvaluatedTxIn → List Byte
  | _, [] => []
  | j, inp :: rest =>
      inputBytes (buildModifiedInput (j == input_index) subscript inp.input) ++
        modifiedInputsBytes input_index subscript (j + 1) rest

/-- Serialization of one output in the message (`sigdump.rs` lines 206-216):
little-endian value, varint script length, script bytes. -/
def outputBytes (o : EvaluatedTxOut) : List Byte :=
  u64le o.out.value ++ o.out.script_len.to_bytes ++ o.out.script_pubkey

/-- The outputs section of the message: the loop over all outputs. -/
def outputsBytes : List EvaluatedTxOut → List Byte
  | [] => []
  | o :: rest => outputBytes o ++ outputsBytes rest

/-- The full to-be-signed message for one signing input (`sigdump.rs` lines
130-134 and 150-222): version, input-count varint, modified inputs,
output-count varint, outputs, locktime, and the hash-type byte widened to a
little-endian `u32`. -/
def tbsMessage (tx : EvaluatedTx) (input_index : Nat) (subscript : List Byte)
    (hash_type : Nat) : List Byte :=
  u32le tx.version ++ tx.in_count.to_bytes ++
    modifiedInputsBytes input_index subscript 0 tx.inputs ++
    tx.out_count.to_bytes ++ outputsBytes tx.outputs ++
    u32le tx.locktime ++ u32le hash_type

/-- `EvaluatedTxIn::as_csv` (`tx.rs` lines 197-210): the six-field
semicolon-separated line.  `{:x}` on a `NonZeroScalar` renders the full
32-byte big-endian scalar encoding in lowercase hex (spec 9: leading zero
bytes are preserved); the `&self` receiver of the source method is unused
there and omitted here. -/
def scalar_be_bytes (n : Nat) : List Byte :=
  (List.range 32).map (fun k => n / 256 ^ (31 - k) % 256)

/-- Lowercase fixed-width hex of a 256-bit scalar, as `{:x}` prints a
`NonZeroScalar`. -/
def scalar_hex (n : Nat) : String := arr_to_hex (scalar_be_bytes n)

/-- `EvaluatedTxIn::as_csv`: `r;s;pubkey;txid;message_hash;block_time\n`. -/
def EvaluatedTxIn.as_csv (r s : Nat) (pubkey : List Byte) (txid : String)
    (message_hash_str : String) (block_time : Nat) : String :=
  scalar_hex r ++ ";" ++ scalar_hex s ++ ";" ++ arr_to_hex pubkey ++ ";" ++
    txid ++ ";" ++ message_hash_str ++ ";" ++ Nat.repr block_time ++ "\n"

/-- One emitted record: the arguments of the `as_csv` call performed for a
successfully decoded signature. -/
structure SigRecord where
  r : Nat
  s : Nat
  pubkey : List Byte
  txid : String
  message_hash : String
  block_time : Nat
deriving DecidableEq, Repr

/-- The line written for a record. -/
def SigRecord.to_line (rec : SigRecord) : String :=
  EvaluatedTxIn.as_csv rec.r rec.s rec.pubkey rec.txid rec.message_hash
    rec.block_time

/-- Processing of one input (`sigdump.rs` lines 138-240): on the signature
pattern, split off the trailing hash-type byte (the source indexes
`sig[sig.len() - 1]`, which panics on an empty push, hence `none` there),
decode the DER signature, fetch the subscript, hash the reconstructed
message twice and emit one record; a failed decode or a non-matching pattern
yields no record and no failure. -/
def processInput (db : String → Option (List (List Byte)))
    (parse : List Byte → Option (Nat × Nat)) (tx : EvaluatedTx)
    (txid_str : String) (block_time : Nat) (input_index : Nat)
    (input : EvaluatedTxIn) : Option (List SigRecord) :=
  match input.script.pattern with
  | ScriptPattern.scriptSig sig pubkey =>
      match sig.getLast? with
      | none => none
      | some hash_type =>
          let only_sig := sig.dropLast
          match fromDer parse only_sig with
          | some (r, s) =>
              match subscriptFor db input.input with
              | some subscript =>
                  let tbs_message := tbsMessage tx input_index subscript hash_type
                  let message_hash := sha256 (sha256 tbs_message)
                  let message_hash_str := arr_to_hex message_hash
                  some [⟨r, s, pubkey, txid_str, message_hash_str, block_time⟩]
              | none => none
          | none => some []
  | ScriptPattern.other => some []

/-- The input loop of `on_block` with its running `input_index`; a panic in
any input aborts the block call. -/
def processInputs (db : String → Option (List (List Byte)))
    (parse : List Byte → Option (Nat × Nat)) (tx : EvaluatedTx)
    (txid_str : String) (block_time : Nat) :
    Nat → List EvaluatedTxIn → Option (List SigRecord)
  | _, [] => some []
  | i, inp :: rest =>
      match processInput db parse tx txid_str block_time i inp with
      | none => none
      | some ys =>
          match processInputs db parse tx txid_str block_time (i + 1) rest with
          | none => none
          | some rest_recs => some (ys ++ rest_recs)

/-- Processing of one transaction of a block: display-order txid, then the
input loop. -/
def processTx (db : String → Option (List (List Byte)))
    (parse : List Byte → Option (Nat × Nat)) (block_time : Nat)
    (tx : Hashed EvaluatedTx) : Option (List SigRecord) :=
  let txid_str := arr_to_hex_swapped tx.hash
  processInputs db parse tx.value txid_str block_time 0 tx.value.inputs

/-- Sequential processing that concatenates per-item record lists and aborts
on the first panic. -/
def collectSome {α β : Type} (f : α → Option (List β)) :
    List α → Option (List β)
  | [] => some []
  | x :: xs =>
      match f x with
      | none => none
      | some ys =>
          match collectSome f xs with
          | none => none
          | some rest => some (ys ++ rest)

/-- `SigDump::on_block`: all transactions of a block in order, at the block's
header timestamp. -/
def on_block (db : String → Option (List (List Byte)))
    (parse : List Byte → Option (Nat × Nat)) (block : Block) :
    Option (List SigRecord) :=
  collectSome (processTx db parse block.header.value.timestamp) block.txs

/-- The whole run: blocks in delivery order. -/
def processBlocks (db : String → Option (List (List Byte)))
    (parse : List Byte → Option (Nat × Nat)) (blocks : List Block) :
    Option (List SigRecord) :=
  collectSome (on_block db parse) blocks

/-- The bytes of the output file: the emitted lines in order. -/
def outputFile (db : String → Option (List (List Byte)))
    (parse : List Byte → Option (Nat × Nat)) (blocks : List Block) :
    Option String :=
  (processBlocks db parse blocks).map
    (fun recs => String.join (recs.map SigRecord.to_line))

/-! The message as the specification words it (spec 4.6 / claim C1), for
comparison with the message the code builds. -/

/-- The modified-inputs section as the spec words it: for every input `j`,
the unchanged outpoint bytes, then at `j = i` the varint of the true
subscript length and the subscript bytes and elsewhere `varint(0)` with an
empty script, then the unchanged little-endian sequence number. -/
def specModifiedInputs (i : Nat) (subscript : List Byte) :
    Nat → List EvaluatedTxIn → List Byte
  | _, [] => []
  | j, inp :: rest =>
      (inp.input.outpoint.to_bytes ++
        (if j = i then VarUint.to_bytes ⟨subscript.length⟩ ++ subscript
         else VarUint.to_bytes ⟨0⟩) ++
        u32le inp.input.seq_no) ++
        specModifiedInputs i subscript (j + 1) rest

/-- The outputs section as the spec words it: every output's canonical
serialization unchanged. -/
def specOutputs : List EvaluatedTxOut → List Byte
  | [] => []
  | o :: rest => o.out.to_bytes ++ specOutputs rest

/-- The to-be-signed message exactly as spec 4.6 / claim C1 describe it. -/
def specMessage (tx : EvaluatedTx) (i : Nat) (subscript : List Byte)
    (hash_type : Nat) : List Byte :=
  u32le tx.version ++ tx.in_count.to_bytes ++
    specModifiedInputs i subscript 0 tx.inputs ++
    tx.out_count.to_bytes ++ specOutputs tx.outputs ++
    u32le tx.locktime ++ [hash_type, 0, 0, 0]

/-! Helper lemmas. -/

/-- A left fold that appends each item's bytes builds the initial bytes
followed by the concatenation of all items' bytes. -/
theorem foldl_append_flatten {α β : Type} (f : α → List β) :
    ∀ (l : List α) (init : List β),
      l.foldl (fun acc x => acc ++ f x) init = init ++ (l.map f).flatten := by
  intro l
  induction l with
  | nil => intro init; simp
  | cons a as ih => intro init; simp [ih]

/-- Claim C8: the canonical serializers produce exactly the on-wire byte
string — a transaction is the 4-byte LE version, the input-count varint, the
inputs in order, the output-count varint, the outputs in order and the
4-byte LE locktime; an input is the outpoint bytes (txid in stored order
then 4-byte LE index), the script-length varint, the script bytes and the
4-byte LE sequence; an output is the 8-byte LE value, the script-length
varint and the script bytes; with no padding or alignment bytes. -/
theorem c8_raw_serializers :
    (∀ tx : EvaluatedTx,
      EvaluatedTx.to_bytes tx =
        u32le tx.version ++ tx.in_count.to_bytes ++
          (tx.inputs.map (fun i => i.input.to_bytes)).flatten ++
          tx.out_count.to_bytes ++
          (tx.outputs.map (fun o => o.out.to_bytes)).flatten ++
          u32le tx.locktime) ∧
    (∀ i : TxInput,
      TxInput.to_bytes i =
        (i.outpoint.txid ++ u32le i.outpoint.index) ++
          i.script_len.to_bytes ++ i.script_sig ++ u32le i.seq_no) ∧
    (∀ o : TxOutput,
      TxOutput.to_bytes o =
        u64le o.value ++ o.script_len.to_bytes ++ o.script_pubkey) ∧
    (∀ p : TxOutpoint, TxOutpoint.to_bytes p = p.txid ++ u32le p.index) ∧
    (∀ n : Nat, (u32le n).length = 4 ∧ (u64le n).length = 8) := by
  refine ⟨fun tx => ?_, fun i => rfl, fun o => rfl, fun p => rfl,
    fun n => ⟨rfl, rfl⟩⟩
  simp [EvaluatedTx.to_bytes, foldl_append_flatten]

/-- A `u32` below 256 encodes little-endian as its value followed by three
zero bytes. -/
theorem u32le_small (n : Nat) (h : n < 256) : u32le n = [n, 0, 0, 0] := by
  have d1 : n / 256 = 0 := Nat.div_eq_of_lt h
  have d2 : n / 65536 = 0 := Nat.div_eq_of_lt (by omega)
  have d3 : n / 16777216 = 0 := Nat.div_eq_of_lt (by omega)
  simp [u32le, Nat.mod_eq_of_lt h, d1, d2, d3]

/-- The code's modified-inputs section agrees with the spec's wording
whenever the subscript is shorter than 256 bytes (so that the `as u8`
truncation of its length is invisible). -/
theorem modifiedInputsBytes_eq_spec (i : Nat) (sub : List Byte)
    (hlen : sub.length < 256) :
    ∀ (j : Nat) (l : List EvaluatedTxIn),
      modifiedInputsBytes i sub j l = specModifiedInputs i sub j l := by
  intro j l
  induction l generalizing j with
  | nil => rfl
  | cons inp rest ih =>
      simp only [modifiedInputsBytes, specModifiedInputs, ih]
      by_cases h : j = i
      · simp [h, buildModifiedInput, inputBytes, TxOutpoint.to_bytes,
          Nat.mod_eq_of_lt hlen]
      · simp [h, buildModifiedInput, inputBytes, TxOutpoint.to_bytes]

/-- The code's outputs section agrees with the spec's wording: each output's
canonical serialization, concatenated. -/
theorem outputsBytes_eq_spec : ∀ l, outputsBytes l = specOutputs l := by
  intro l
  induction l with
  | nil => rfl
  | cons o rest ih =>
      simp [outputsBytes, specOutputs, outputBytes, TxOutput.to_bytes, ih]

/-- The code's reconstructed message equals the spec's message whenever the
subscript is shorter than 256 bytes and the hash-type byte is a byte. -/
theorem tbsMessage_eq_specMessage (tx : EvaluatedTx) (i : Nat)
    (sub : List Byte) (ht : Nat) (hlen : sub.length < 256) (hht : ht < 256) :
    tbsMessage tx i sub ht = specMessage tx i sub ht := by
  simp [tbsMessage, specMessage, modifiedInputsBytes_eq_spec i sub hlen,
    outputsBytes_eq_spec, u32le_small ht hht]

/-! Concrete fixtures for witnesses and counterexamples.  `derSig0` is the
strict DER encoding of the signature with scalars `r = s = 1`
(`3006020101020101`); `parse0` is a DER parser that decodes exactly this
encoding, as the external decoder does. -/

/-- DER bytes of the ECDSA signature with `r = s = 1`. -/
def derSig0 : List Byte := [0x30, 0x06, 0x02, 0x01, 0x01, 0x02, 0x01, 0x01]

/-- The signature push: DER bytes followed by the hash-type byte `0x01`. -/
def sig0 : List Byte := derSig0 ++ [1]

/-- A 33-byte compressed-public-key push. -/
def pubkey0 : List Byte := 0x02 :: List.replicate 32 0x11

/-- A DER parser that decodes exactly `derSig0` to `(1, 1)`. -/
def parse0 : List Byte → Option (Nat × Nat) :=
  fun b => if b = derSig0 then some (1, 1) else none

/-- Prior txid spent by the fixture input. -/
def txidA : List Byte := List.replicate 32 0xaa

/-- A fixture input carrying the signature-and-pubkey pattern. -/
def input0 : EvaluatedTxIn :=
  ⟨⟨ScriptPattern.scriptSig sig0 pubkey0⟩,
   ⟨⟨txidA, 0⟩, ⟨9⟩, sig0, 0xffffffff⟩⟩

/-- A fixture output paying to the script `[0x51]`. -/
def out0 : EvaluatedTxOut := ⟨⟨5000000000, ⟨1⟩, [0x51]⟩⟩

/-- Txid of the fixture transaction. -/
def txidB : List Byte := List.replicate 32 0xbb

/-- A fixture transaction with one signed input and one output. -/
def txA : Hashed EvaluatedTx := ⟨txidB, ⟨1, ⟨1⟩, [input0], ⟨1⟩, [out0], 0⟩⟩

/-- A 256-byte subscript, long enough to expose the `as u8` truncation. -/
def sub256 : List Byte := List.replicate 256 0x55

/-- An oracle that answers the fixture outpoint with the 256-byte script. -/
def db256 : String → Option (List (List Byte)) :=
  fun k => if k = arr_to_hex_swapped txidA then some [sub256] else none

/-- An oracle that answers the fixture outpoint with the script `[0x51]`. -/
def dbHit : String → Option (List (List Byte)) :=
  fun k => if k = arr_to_hex_swapped txidA then some [[0x51]] else none

/-- An oracle that never finds a transaction. -/
def dbNone : String → Option (List (List Byte)) := fun _ => none

/-- Claim C1 (amended: the subscript must be shorter than 256 bytes, because
the code truncates the script-length to `u8` before varint-encoding it):
for every input whose unlocking script matches the signature-plus-pubkey
pattern and whose DER signature decodes, the emitted record carries the
double-SHA-256 of the spec's message — version, wire input-count varint,
modified inputs (outpoint unchanged, subscript with its varint length at the
signing position, `varint(0)` and empty script elsewhere, sequence
unchanged), wire output-count varint, the outputs' canonical serialization
unchanged, locktime, and the hash-type byte zero-extended to four
little-endian bytes. -/
theorem c1_sighash_digest (db : String → Option (List (List Byte)))
    (parse : List Byte → Option (Nat × Nat)) (tx : EvaluatedTx)
    (txid_str : String) (block_time i : Nat) (input : EvaluatedTxIn)
    (sig pubkey subscript : List Byte) (r s hash_type : Nat)
    (hpat : input.script.pattern = ScriptPattern.scriptSig sig pubkey)
    (hlast : sig.getLast? = some hash_type)
    (hht : hash_type < 256)
    (hdec : fromDer parse sig.dropLast = some (r, s))
    (hsub : subscriptFor db input.input = some subscript)
    (hlen : subscript.length < 256) :
    processInput db parse tx txid_str block_time i input =
      some [⟨r, s, pubkey, txid_str,
        arr_to_hex (sha256 (sha256 (specMessage tx i subscript hash_type))),
        block_time⟩] := by
  simp [processInput, hpat, hlast, hdec, hsub,
    tbsMessage_eq_specMessage tx i subscript hash_type hlen hht]

/-- Witness for `c1_sighash_digest` at the fixture input with subscript
`[0x51]`. -/
theorem c1_sighash_digest_witness :
    input0.script.pattern = ScriptPattern.scriptSig sig0 pubkey0 ∧
    sig0.getLast? = some 1 ∧ (1 : Nat) < 256 ∧
    fromDer parse0 sig0.dropLast = some (1, 1) ∧
    subscriptFor dbHit input0.input = some [0x51] ∧
    ([0x51] : List Byte).length < 256 ∧
    processInput dbHit parse0 txA.value "ff" 7 0 input0 =
      some [⟨1, 1, pubkey0, "ff",
        arr_to_hex (sha256 (sha256 (specMessage txA.value 0 [0x51] 1))), 7⟩] :=
  ⟨by decide, by decide, by norm_num, by decide, by decide, by norm_num,
    c1_sighash_digest dbHit parse0 txA.value "ff" 7 0 input0 sig0 pubkey0
      [0x51] 1 1 1 (by decide) (by decide) (by norm_num) (by decide)
      (by decide) (by norm_num)⟩

set_option maxRecDepth 100000 in
/-- Counterexample to claim C1 as stated: with a 256-byte subscript the code
still emits a record, but the hashed message is not the spec's message — the
script-length field was truncated — so the emitted digest differs from the
double-SHA-256 of the spec's `M`. -/
theorem c1_counterexample :
    processInput db256 parse0 txA.value "ff" 7 0 input0 =
      some [⟨1, 1, pubkey0, "ff",
        arr_to_hex (sha256 (sha256 (tbsMessage txA.value 0 sub256 1))), 7⟩] ∧
    arr_to_hex (sha256 (sha256 (tbsMessage txA.value 0 sub256 1))) ≠
      arr_to_hex (sha256 (sha256 (specMessage txA.value 0 sub256 1))) := by
  exact ⟨rfl, by decide⟩

set_option maxRecDepth 100000 in
/-- Claim C2 (code bug): at the signing position the code encodes
`varint(len(subscript) as u8)`, not `varint(len(subscript))`; for the
256-byte subscript the emitted length field is the single byte `0x00`,
whereas the varint of the true length is `fd 00 01`. -/
theorem c2_script_len_truncated :
    (buildModifiedInput true sub256 input0.input).script_len.to_bytes = [0] ∧
    (VarUint.mk sub256.length).to_bytes = [0xFD, 0x00, 0x01] := by
  decide

/-- The part of the reconstructed message that precedes the hash-type
field; it does not depend on the hash type. -/
def tbsPrefixBytes (tx : EvaluatedTx) (input_index : Nat)
    (subscript : List Byte) : List Byte :=
  u32le tx.version ++ tx.in_count.to_bytes ++
    modifiedInputsBytes input_index subscript 0 tx.inputs ++
    tx.out_count.to_bytes ++ outputsBytes tx.outputs ++ u32le tx.locktime

/-- The reconstructed message is the hash-type-independent prefix followed
by the 4-byte little-endian hash type. -/
theorem tbsMessage_split_at_hash_type (tx : EvaluatedTx) (i : Nat) (sub : List Byte)
    (ht : Nat) : tbsMessage tx i sub ht = tbsPrefixBytes tx i sub ++ u32le ht := by
  simp [tbsMessage, tbsPrefixBytes]

/-- A list followed by four bytes: length, take and drop facts. -/
theorem append_four_facts (X : List Byte) (a b c d : Byte) :
    (X ++ [a, b, c, d]).length = X.length + 4 ∧
    (X ++ [a, b, c, d]).take ((X ++ [a, b, c, d]).length - 4) = X ∧
    (X ++ [a, b, c, d]).drop ((X ++ [a, b, c, d]).length - 4) = [a, b, c, d] := by
  have hlen : (X ++ [a, b, c, d]).length = X.length + 4 := by simp
  have hx : X.length + 4 - 4 = X.length := by omega
  refine ⟨hlen, ?_, ?_⟩
  · rw [hlen, hx, List.take_left]
  · rw [hlen, hx, List.drop_left]

/-- Claim C10: the reconstructed message depends on the hash-type byte only
through its final four bytes — the same zeroing pattern is applied for every
hash-type value, so two messages for the same transaction, input index and
subscript that differ only in hash type agree everywhere except the last
four bytes, which are the hash type zero-extended to 32 bits. -/
theorem c10_hash_type_last_four (tx : EvaluatedTx) (i : Nat)
    (sub : List Byte) (ht1 ht2 : Nat) (h1 : ht1 < 256) (h2 : ht2 < 256) :
    tbsMessage tx i sub ht1 = tbsPrefixBytes tx i sub ++ [ht1, 0, 0, 0] ∧
    tbsMessage tx i sub ht2 = tbsPrefixBytes tx i sub ++ [ht2, 0, 0, 0] ∧
    (tbsMessage tx i sub ht1).length = (tbsMessage tx i sub ht2).length ∧
    (tbsMessage tx i sub ht1).take ((tbsMessage tx i sub ht1).length - 4) =
      (tbsMessage tx i sub ht2).take ((tbsMessage tx i sub ht2).length - 4) ∧
    (tbsMessage tx i sub ht1).drop ((tbsMessage tx i sub ht1).length - 4) =
      [ht1, 0, 0, 0] ∧
    (tbsMessage tx i sub ht2).drop ((tbsMessage tx i sub ht2).length - 4) =
      [ht2, 0, 0, 0] := by
  have e1 : tbsMessage tx i sub ht1 = tbsPrefixBytes tx i sub ++ [ht1, 0, 0, 0] := by
    rw [tbsMessage_split_at_hash_type, u32le_small ht1 h1]
  have e2 : tbsMessage tx i sub ht2 = tbsPrefixBytes tx i sub ++ [ht2, 0, 0, 0] := by
    rw [tbsMessage_split_at_hash_type, u32le_small ht2 h2]
  obtain ⟨l1, t1, d1⟩ := append_four_facts (tbsPrefixBytes tx i sub) ht1 0 0 0
  obtain ⟨l2, t2, d2⟩ := append_four_facts (tbsPrefixBytes tx i sub) ht2 0 0 0
  rw [e1, e2]
  exact ⟨rfl, rfl, by rw [l1, l2], by rw [t1, t2], d1, d2⟩

/-- Witness for `c10_hash_type_last_four` at the fixture transaction with
hash types 1 and 2. -/
theorem c10_hash_type_last_four_witness :
    (1 : Nat) < 256 ∧ (2 : Nat) < 256 ∧
    (tbsMessage txA.value 0 [0x51] 1 =
        tbsPrefixBytes txA.value 0 [0x51] ++ [1, 0, 0, 0] ∧
      tbsMessage txA.value 0 [0x51] 2 =
        tbsPrefixBytes txA.value 0 [0x51] ++ [2, 0, 0, 0] ∧
      (tbsMessage txA.value 0 [0x51] 1).length =
        (tbsMessage txA.value 0 [0x51] 2).length ∧
      (tbsMessage txA.value 0 [0x51] 1).take
          ((tbsMessage txA.value 0 [0x51] 1).length - 4) =
        (tbsMessage txA.value 0 [0x51] 2).take
          ((tbsMessage txA.value 0 [0x51] 2).length - 4) ∧
      (tbsMessage txA.value 0 [0x51] 1).drop
          ((tbsMessage txA.value 0 [0x51] 1).length - 4) = [1, 0, 0, 0] ∧
      (tbsMessage txA.value 0 [0x51] 2).drop
          ((tbsMessage txA.value 0 [0x51] 2).length - 4) = [2, 0, 0, 0]) :=
  ⟨by norm_num, by norm_num,
    c10_hash_type_last_four txA.value 0 [0x51] 1 2 (by norm_num) (by norm_num)⟩

/-- Claim C3: for every input carrying a decodable signature whose prior
output cannot be obtained from the oracle, the core substitutes an empty
subscript and still emits the record for that input; and an oracle miss is
never fatal — any input whose processing succeeds lets the input loop
continue, so a block call fails only if some input's own processing
panics. -/
theorem c3_missing_prev_output_nonfatal
    (db : String → Option (List (List Byte)))
    (parse : List Byte → Option (Nat × Nat)) (tx : EvaluatedTx)
    (txid_str : String) (block_time i : Nat) (input : EvaluatedTxIn)
    (sig pubkey : List Byte) (r s hash_type : Nat)
    (hpat : input.script.pattern = ScriptPattern.scriptSig sig pubkey)
    (hlast : sig.getLast? = some hash_type)
    (hdec : fromDer parse sig.dropLast = some (r, s))
    (hmiss : SigDump.get_previous_outputs db input.input.outpoint.txid = none) :
    processInput db parse tx txid_str block_time i input =
      some [⟨r, s, pubkey, txid_str,
        arr_to_hex (sha256 (sha256 (tbsMessage tx i [] hash_type))),
        block_time⟩] ∧
    (∀ (tx' : EvaluatedTx) (ts : String) (bt j : Nat)
        (l : List EvaluatedTxIn),
      (∀ (k : Nat) (inp : EvaluatedTxIn),
        processInput db parse tx' ts bt k inp ≠ none) →
      processInputs db parse tx' ts bt j l ≠ none) := by
  constructor
  · have hs : subscriptFor db input.input = some [] := by
      simp [subscriptFor, hmiss]
    simp [processInput, hpat, hlast, hdec, hs]
  · intro tx' ts bt j l hall
    induction l generalizing j with
    | nil => simp [processInputs]
    | cons inp rest ih =>
        cases hpi : processInput db parse tx' ts bt j inp with
        | none => exact absurd hpi (hall j inp)
        | some ys =>
            cases hrest : processInputs db parse tx' ts bt (j + 1) rest with
            | none => exact absurd hrest (ih (j + 1))
            | some rest_recs => simp [processInputs, hpi, hrest]

/-- Witness for `c3_missing_prev_output_nonfatal`: the fixture input against
the always-missing oracle. -/
theorem c3_missing_prev_output_witness :
    processInput dbNone parse0 txA.value "ff" 7 0 input0 =
      some [⟨1, 1, pubkey0, "ff",
        arr_to_hex (sha256 (sha256 (tbsMessage txA.value 0 [] 1))), 7⟩] ∧
    (∀ (tx' : EvaluatedTx) (ts : String) (bt j : Nat)
        (l : List EvaluatedTxIn),
      (∀ (k : Nat) (inp : EvaluatedTxIn),
        processInput dbNone parse0 tx' ts bt k inp ≠ none) →
      processInputs dbNone parse0 tx' ts bt j l ≠ none) :=
  c3_missing_prev_output_nonfatal dbNone parse0 txA.value "ff" 7 0 input0
    sig0 pubkey0 1 1 1 (by decide) (by decide) (by decide) rfl

/-- Claim C4: when the oracle returns the prior transaction, the subscript
lookup indexes the returned output list at the input's outpoint index with
no bounds guard: record construction for the input is well-defined exactly
when the outpoint index is strictly below the number of returned outputs,
and under that precondition the lookup returns the indexed element (no
out-of-range access). -/
theorem c4_subscript_lookup_bounds
    (db : String → Option (List (List Byte)))
    (parse : List Byte → Option (Nat × Nat)) (tx : EvaluatedTx)
    (txid_str : String) (block_time i : Nat) (input : EvaluatedTxIn)
    (sig pubkey : List Byte) (r s hash_type : Nat)
    (prev_outs : List (List Byte))
    (hpat : input.script.pattern = ScriptPattern.scriptSig sig pubkey)
    (hlast : sig.getLast? = some hash_type)
    (hdec : fromDer parse sig.dropLast = some (r, s))
    (hhit : SigDump.get_previous_outputs db input.input.outpoint.txid =
      some prev_outs) :
    ((processInput db parse tx txid_str block_time i input).isSome ↔
      input.input.outpoint.index < prev_outs.length) ∧
    (∀ h : input.input.outpoint.index < prev_outs.length,
      subscriptFor db input.input =
        some (prev_outs.get ⟨input.input.outpoint.index, h⟩)) := by
  have hsub : subscriptFor db input.input =
      prev_outs.get? input.input.outpoint.index := by
    simp [subscriptFor, hhit]
  constructor
  · constructor
    · intro hs
      by_contra hlt
      push_neg at hlt
      have hnone : prev_outs.get? input.input.outpoint.index = none :=
        List.get?_eq_none.mpr hlt
      rw [← hsub] at hnone
      simp [processInput, hpat, hlast, hdec, hnone] at hs
    · intro hlt
      have hg : prev_outs.get? input.input.outpoint.index =
          some (prev_outs.get ⟨input.input.outpoint.index, hlt⟩) :=
        List.get?_eq_get hlt
      rw [hg] at hsub
      simp [processInput, hpat, hlast, hdec, hsub]
  · intro h
    rw [hsub]
    exact List.get?_eq_get h

/-- Witness for `c4_subscript_lookup_bounds`: the fixture input against the
one-output oracle. -/
theorem c4_subscript_lookup_witness :
    ((processInput dbHit parse0 txA.value "ff" 7 0 input0).isSome ↔
      input0.input.outpoint.index < [[0x51]].length) ∧
    (∀ h : input0.input.outpoint.index < ([[0x51]] : List (List Byte)).length,
      subscriptFor dbHit input0.input =
        some ([[0x51]].get ⟨input0.input.outpoint.index, h⟩)) :=
  c4_subscript_lookup_bounds dbHit parse0 txA.value "ff" 7 0 input0
    sig0 pubkey0 1 1 1 [[0x51]] (by decide) (by decide) (by decide) rfl

/-- Claim C9: the emitted output is a deterministic function of the
delivered block stream and the oracle's answers — two runs on equal block
streams with extensionally equal oracles and decoders produce byte-identical
output files. -/
theorem c9_determinism (db1 db2 : String → Option (List (List Byte)))
    (parse1 parse2 : List Byte → Option (Nat × Nat))
    (blocks1 blocks2 : List Block)
    (hdb : ∀ k, db1 k = db2 k) (hparse : ∀ b, parse1 b = parse2 b)
    (hblocks : blocks1 = blocks2) :
    outputFile db1 parse1 blocks1 = outputFile db2 parse2 blocks2 := by
  have h1 : db1 = db2 := funext hdb
  have h2 : parse1 = parse2 := funext hparse
  rw [h1, h2, hblocks]

/-- Witness for `c9_determinism` at the fixture block. -/
theorem c9_determinism_witness :
    outputFile dbNone parse0 [⟨⟨List.replicate 32 0xcc,
        ⟨2, List.replicate 32 0, List.replicate 32 0, 7, 0x1d00ffff, 0⟩⟩,
      ⟨1⟩, [txA]⟩] =
    outputFile dbNone parse0 [⟨⟨List.replicate 32 0xcc,
        ⟨2, List.replicate 32 0, List.replicate 32 0, 7, 0x1d00ffff, 0⟩⟩,
      ⟨1⟩, [txA]⟩] :=
  c9_determinism dbNone dbNone parse0 parse0 _ _
    (fun _ => rfl) (fun _ => rfl) rfl

/-- A successful decode passes the spec's validity filter: both scalars are
nonzero and below the curve order. -/
theorem fromDer_bounds (parse : List Byte → Option (Nat × Nat))
    (b : List Byte) (r s : Nat) (h : fromDer parse b = some (r, s)) :
    0 < r ∧ r < p256Order ∧ 0 < s ∧ s < p256Order := by
  unfold fromDer at h
  cases hp : parse b with
  | none => rw [hp] at h; simp at h
  | some rs =>
      obtain ⟨r', s'⟩ := rs
      rw [hp] at h
      by_cases hc : 0 < r' ∧ r' < p256Order ∧ 0 < s' ∧ s' < p256Order
      · simp [hc] at h
        obtain ⟨hr, hs⟩ := h
        subst hr; subst hs
        exact hc
      · simp [hc] at h

/-- Every record produced by one input's processing comes from the
signature-pattern branch with a successful decode, and carries the passed
txid string and block time, the decoded scalars, the pushed public key, and
the double-SHA-256 of the reconstructed message. -/
theorem processInput_record_shape (db : String → Option (List (List Byte)))
    (parse : List Byte → Option (Nat × Nat)) (tx : EvaluatedTx) (ts : String)
    (bt i : Nat) (inp : EvaluatedTxIn) (zs : List SigRecord)
    (h : processInput db parse tx ts bt i inp = some zs) (rec : SigRecord)
    (hm : rec ∈ zs) :
    ∃ (sig pubkey subscript : List Byte) (ht : Nat),
      inp.script.pattern = ScriptPattern.scriptSig sig pubkey ∧
      sig.getLast? = some ht ∧
      fromDer parse sig.dropLast = some (rec.r, rec.s) ∧
      subscriptFor db inp.input = some subscript ∧
      rec = ⟨rec.r, rec.s, pubkey, ts,
        arr_to_hex (sha256 (sha256 (tbsMessage tx i subscript ht))), bt⟩ := by
  cases hp : inp.script.pattern with
  | other =>
      simp [processInput, hp] at h
      subst h
      simp at hm
  | scriptSig sig pubkey =>
      cases hl : sig.getLast? with
      | none => simp [processInput, hp, hl] at h
      | some ht =>
          cases hd : fromDer parse sig.dropLast with
          | none =>
              simp [processInput, hp, hl, hd] at h
              subst h
              simp at hm
          | some rs =>
              obtain ⟨r, s⟩ := rs
              cases hsub : subscriptFor db inp.input with
              | none => simp [processInput, hp, hl, hd, hsub] at h
              | some subscript =>
                  simp [processInput, hp, hl, hd, hsub] at h
                  subst h
                  simp at hm
                  subst hm
                  exact ⟨sig, pubkey, subscript, ht, rfl, hl, hd, rfl, rfl⟩

/-- Every record in a successful `collectSome` run comes from one item's
successful processing. -/
theorem collectSome_mem {α β : Type} (f : α → Option (List β)) :
    ∀ (l : List α) (ys : List β), collectSome f l = some ys →
      ∀ y ∈ ys, ∃ x ∈ l, ∃ zs, f x = some zs ∧ y ∈ zs := by
  intro l
  induction l with
  | nil =>
      intro ys h y hy
      simp [collectSome] at h
      subst h
      simp at hy
  | cons a as ih =>
      intro ys h y hy
      cases hf : f a with
      | none => simp [collectSome, hf] at h
      | some bs =>
          cases hrest : collectSome f as with
          | none => simp [collectSome, hf, hrest] at h
          | some rest =>
              simp [collectSome, hf, hrest] at h
              subst h
              rcases List.mem_append.mp hy with hb | hr
              · exact ⟨a, by simp, bs, hf, hb⟩
              · obtain ⟨x, hx, zs, hzs, hyz⟩ := ih rest hrest y hr
                exact ⟨x, by simp [hx], zs, hzs, hyz⟩

/-- Every record in a successful input loop comes from one input's
successful processing. -/
theorem processInputs_mem (db : String → Option (List (List Byte)))
    (parse : List Byte → Option (Nat × Nat)) (tx : EvaluatedTx) (ts : String)
    (bt : Nat) :
    ∀ (j : Nat) (l : List EvaluatedTxIn) (ys : List SigRecord),
      processInputs db parse tx ts bt j l = some ys →
      ∀ rec ∈ ys, ∃ (i : Nat) (inp : EvaluatedTxIn) (zs : List SigRecord),
        processInput db parse tx ts bt i inp = some zs ∧ rec ∈ zs := by
  intro j l
  induction l generalizing j with
  | nil =>
      intro ys h rec hy
      simp [processInputs] at h
      subst h
      simp at hy
  | cons inp rest ih =>
      intro ys h rec hy
      cases hf : processInput db parse tx ts bt j inp with
      | none => simp [processInputs, hf] at h
      | some bs =>
          cases hrest : processInputs db parse tx ts bt (j + 1) rest with
          | none => simp [processInputs, hf, hrest] at h
          | some rest_recs =>
              simp [processInputs, hf, hrest] at h
              subst h
              rcases List.mem_append.mp hy with hb | hr
              · exact ⟨j, inp, bs, hf, hb⟩
              · exact ih (j + 1) rest_recs hrest rec hr

/-- Provenance of every emitted record of a whole run: it comes from some
block and transaction of the stream, from an input with the signature
pattern and a successful decode, and carries the display-order txid of that
transaction, the block's timestamp and the double-SHA-256 of the
reconstructed message. -/
theorem processBlocks_record_shape (db : String → Option (List (List Byte)))
    (parse : List Byte → Option (Nat × Nat)) (blocks : List Block)
    (recs : List SigRecord) (h : processBlocks db parse blocks = some recs)
    (rec : SigRecord) (hm : rec ∈ recs) :
    ∃ blk ∈ blocks, ∃ tx ∈ blk.txs,
      ∃ (i : Nat) (inp : EvaluatedTxIn)
        (sig pubkey subscript : List Byte) (ht : Nat),
        inp.script.pattern = ScriptPattern.scriptSig sig pubkey ∧
        sig.getLast? = some ht ∧
        fromDer parse sig.dropLast = some (rec.r, rec.s) ∧
        rec = ⟨rec.r, rec.s, pubkey, arr_to_hex_swapped tx.hash,
          arr_to_hex (sha256 (sha256 (tbsMessage tx.value i subscript ht))),
          blk.header.value.timestamp⟩ := by
  obtain ⟨blk, hblk, brecs, hbrecs, hrecb⟩ :=
    collectSome_mem _ blocks recs h rec hm
  obtain ⟨tx, htx, trecs, htrecs, hrect⟩ :=
    collectSome_mem _ blk.txs brecs hbrecs rec hrecb
  rw [processTx] at htrecs
  obtain ⟨i, inp, zs, hz, hrecz⟩ :=
    processInputs_mem db parse tx.value _ _ 0 tx.value.inputs trecs htrecs
      rec hrect
  obtain ⟨sig, pubkey, subscript, ht, hp, hl, hd, _, hrec⟩ :=
    processInput_record_shape db parse tx.value _ _ i inp zs hz rec hrecz
  exact ⟨blk, hblk, tx, htx, i, inp, sig, pubkey, subscript, ht, hp, hl, hd,
    hrec⟩

/-- A pushed signature field whose DER part the fixture parser rejects. -/
def sigBadFixture : List Byte := [0x30, 0x00, 0x01]

/-- Claim C5: an input whose pushed signature fails strict DER parsing, or
whose scalar is zero or out of range for the curve order (the decode filter
returns `none` in all those cases), produces no record and no abort; and
every record of any run carries scalars that passed the checks — nonzero
and below the curve order. -/
theorem c5_der_reject_skips_input :
    (∀ (db : String → Option (List (List Byte)))
        (parse : List Byte → Option (Nat × Nat)) (tx : EvaluatedTx)
        (ts : String) (bt i : Nat) (input : EvaluatedTxIn)
        (sig pubkey : List Byte),
      input.script.pattern = ScriptPattern.scriptSig sig pubkey →
      sig ≠ [] →
      fromDer parse sig.dropLast = none →
      processInput db parse tx ts bt i input = some []) ∧
    (∀ (db : String → Option (List (List Byte)))
        (parse : List Byte → Option (Nat × Nat)) (blocks : List Block)
        (recs : List SigRecord) (rec : SigRecord),
      processBlocks db parse blocks = some recs → rec ∈ recs →
      0 < rec.r ∧ rec.r < p256Order ∧ 0 < rec.s ∧ rec.s < p256Order) := by
  constructor
  · intro db parse tx ts bt i input sig pubkey hpat hne hdec
    have hlast : sig.getLast? = some (sig.getLast hne) :=
      List.getLast?_eq_getLast sig hne
    simp [processInput, hpat, hlast, hdec]
  · intro db parse blocks recs rec h hm
    obtain ⟨blk, _, tx, _, i, inp, sig, pubkey, subscript, ht, _, _, hd, _⟩ :=
      processBlocks_record_shape db parse blocks recs h rec hm
    exact fromDer_bounds parse _ rec.r rec.s hd

/-- A fixture input with the signature pattern but an undecodable DER
field. -/
def inputBad : EvaluatedTxIn :=
  ⟨⟨ScriptPattern.scriptSig sigBadFixture pubkey0⟩,
   ⟨⟨txidA, 0⟩, ⟨3⟩, sigBadFixture, 0xffffffff⟩⟩

/-- A fixture block containing the fixture transaction. -/
def blockA : Block :=
  ⟨⟨List.replicate 32 0xcc,
    ⟨2, List.replicate 32 0, List.replicate 32 0, 7, 0x1d00ffff, 0⟩⟩,
   ⟨1⟩, [txA]⟩

/-- The record the fixture run emits: the fixture oracle misses, so the
subscript is empty. -/
def recA : SigRecord :=
  ⟨1, 1, pubkey0, arr_to_hex_swapped txidB,
   arr_to_hex (sha256 (sha256 (tbsMessage txA.value 0 [] 1))), 7⟩

/-- Witness for `c5_der_reject_skips_input`: the undecodable fixture input
yields no record, and the record of the fixture run has valid scalars. -/
theorem c5_der_reject_witness :
    processInput dbNone parse0 txA.value "ff" 7 0 inputBad = some [] ∧
    (0 < recA.r ∧ recA.r < p256Order ∧ 0 < recA.s ∧ recA.s < p256Order) :=
  ⟨c5_der_reject_skips_input.1 dbNone parse0 txA.value "ff" 7 0 inputBad
      sigBadFixture pubkey0 rfl (by decide) (by decide),
    c5_der_reject_skips_input.2 dbNone parse0 [blockA] [recA] recA rfl
      (by simp)⟩

/-- Txid of the crafted coinbase transaction. -/
def txidCB : List Byte := List.replicate 32 0xdd

/-- A coinbase input (all-zero prior txid, index `0xFFFFFFFF`) whose
unlocking script nevertheless classifies as the signature pattern — miners
choose coinbase script bytes freely, so such bytes are possible. -/
def inputCB : EvaluatedTxIn :=
  ⟨⟨ScriptPattern.scriptSig sig0 pubkey0⟩,
   ⟨⟨List.replicate 32 0, 0xFFFFFFFF⟩, ⟨9⟩, sig0, 0xffffffff⟩⟩

/-- A coinbase transaction carrying the crafted input. -/
def coinbaseTxCB : Hashed EvaluatedTx := ⟨txidCB, ⟨1, ⟨1⟩, [inputCB], ⟨0⟩, [], 0⟩⟩

/-- Counterexample to claim C6 as stated: the driver never checks
`is_coinbase`; a coinbase transaction whose script bytes match the
signature pattern and decode produces a record bearing the coinbase's
txid (the oracle misses the all-zero txid, so the subscript is empty). -/
theorem c6_counterexample :
    coinbaseTxCB.value.is_coinbase = true ∧
    processTx dbNone parse0 7 coinbaseTxCB =
      some [⟨1, 1, pubkey0, arr_to_hex_swapped coinbaseTxCB.hash,
        arr_to_hex (sha256 (sha256 (tbsMessage coinbaseTxCB.value 0 [] 1))),
        7⟩] := by
  exact ⟨by decide, rfl⟩

/-- An input loop over inputs none of which decodes emits nothing and
succeeds. -/
theorem processInputs_skip_all (db : String → Option (List (List Byte)))
    (parse : List Byte → Option (Nat × Nat)) (txv : EvaluatedTx)
    (ts : String) (bt : Nat) :
    ∀ (j : Nat) (l : List EvaluatedTxIn),
      (∀ inp ∈ l, ∀ sig pubkey,
        inp.script.pattern = ScriptPattern.scriptSig sig pubkey →
        sig ≠ [] ∧ fromDer parse sig.dropLast = none) →
      processInputs db parse txv ts bt j l = some [] := by
  intro j l
  induction l generalizing j with
  | nil => intro _; rfl
  | cons inp rest ih =>
      intro hall
      have hinp : processInput db parse txv ts bt j inp = some [] := by
        cases hp : inp.script.pattern with
        | other => simp [processInput, hp]
        | scriptSig sig pubkey =>
            obtain ⟨hne, hdec⟩ := hall inp (by simp) sig pubkey hp
            have hlast : sig.getLast? = some (sig.getLast hne) :=
              List.getLast?_eq_getLast sig hne
            simp [processInput, hp, hlast, hdec]
      have hrest := ih (j + 1) (fun inp' hmem => hall inp' (by simp [hmem]))
      simp [processInputs, hinp, hrest]

/-- Claim C6 (amended: the exclusion holds provided no input of the
coinbase has an unlocking script that classifies as the signature pattern
with a decodable DER field — the code has no explicit coinbase check and
relies on the classifier and decoder rejecting the coinbase script): such a
coinbase transaction yields zero records. -/
theorem c6_coinbase_excluded (db : String → Option (List (List Byte)))
    (parse : List Byte → Option (Nat × Nat)) (bt : Nat)
    (tx : Hashed EvaluatedTx)
    (_hcb : tx.value.is_coinbase = true)
    (hcls : ∀ inp ∈ tx.value.inputs, ∀ sig pubkey,
      inp.script.pattern = ScriptPattern.scriptSig sig pubkey →
      sig ≠ [] ∧ fromDer parse sig.dropLast = none) :
    processTx db parse bt tx = some [] := by
  rw [processTx]
  exact processInputs_skip_all db parse tx.value _ bt 0 tx.value.inputs hcls

/-- A coinbase whose unlocking script does not classify as a signature. -/
def coinbaseTxPlain : Hashed EvaluatedTx :=
  ⟨txidCB,
   ⟨1, ⟨1⟩,
    [⟨⟨ScriptPattern.other⟩,
      ⟨⟨List.replicate 32 0, 0xFFFFFFFF⟩, ⟨2⟩, [0x00, 0x00], 0xffffffff⟩⟩],
    ⟨0⟩, [], 0⟩⟩

/-- Witness for `c6_coinbase_excluded`: the ordinary coinbase yields
zero records. -/
theorem c6_coinbase_excluded_witness :
    processTx dbNone parse0 7 coinbaseTxPlain = some [] :=
  c6_coinbase_excluded dbNone parse0 7 coinbaseTxPlain (by decide)
    (by
      intro inp hmem sig pubkey hp
      simp [coinbaseTxPlain] at hmem
      subst hmem
      simp at hp)

/-- The ten decimal digit characters. -/
def decDigitChars : List Char := "0123456789".data

/-- A `getD` over a list containing the default stays in the list. -/
theorem getD_mem_of_default_mem {l : List Char} {n : Nat} {d : Char}
    (hd : d ∈ l) : l.getD n d ∈ l := by
  cases h : l[n]? with
  | none => simpa [List.getD, h] using hd
  | some c =>
      have hc : c ∈ l := List.get?_mem (by rw [List.get?_eq_getElem?, h])
      simpa [List.getD, h] using hc

/-- Hex digits are hex characters. -/
theorem hexDigit_mem (n : Nat) : hexDigit n ∈ hexDigitChars :=
  getD_mem_of_default_mem (by decide)

/-- Every character of a hex rendering is a hex character. -/
theorem hexCharsOf_subset : ∀ (bs : List Byte), ∀ c ∈ hexCharsOf bs,
    c ∈ hexDigitChars := by
  intro bs
  induction bs with
  | nil => intro c hc; simp [hexCharsOf] at hc
  | cons b rest ih =>
      intro c hc
      simp [hexCharsOf] at hc
      rcases hc with h | h | h
      · subst h; exact hexDigit_mem _
      · subst h; exact hexDigit_mem _
      · exact ih c h

/-- A hex rendering has two characters per byte. -/
theorem hexCharsOf_length : ∀ bs : List Byte,
    (hexCharsOf bs).length = 2 * bs.length := by
  intro bs
  induction bs with
  | nil => rfl
  | cons b rest ih => simp [hexCharsOf, ih]; omega

/-- The fixed-width scalar rendering has 64 characters. -/
theorem scalar_hex_length (n : Nat) : (scalar_hex n).length = 64 := by
  have h32 : (scalar_be_bytes n).length = 32 := by simp [scalar_be_bytes]
  have := hexCharsOf_length (scalar_be_bytes n)
  rw [h32] at this
  simpa [scalar_hex, arr_to_hex, String.length] using this

/-- Decimal digit characters of values below ten. -/
theorem digitChar_mem_dec : ∀ m : Nat, m < 10 →
    Nat.digitChar m ∈ decDigitChars := by decide

/-- `Nat.toDigitsCore` in base ten only prepends decimal digit
characters. -/
theorem toDigitsCore_subset :
    ∀ (fuel n : Nat) (ds : List Char), (∀ c ∈ ds, c ∈ decDigitChars) →
      ∀ c ∈ Nat.toDigitsCore 10 fuel n ds, c ∈ decDigitChars := by
  intro fuel
  induction fuel with
  | zero =>
      intro n ds hds c hc
      simpa [Nat.toDigitsCore] using hds c (by simpa [Nat.toDigitsCore] using hc)
  | succ fuel ih =>
      intro n ds hds c hc
      have hd : Nat.digitChar (n % 10) ∈ decDigitChars :=
        digitChar_mem_dec _ (Nat.mod_lt _ (by norm_num))
      by_cases h : n / 10 = 0
      · simp [Nat.toDigitsCore, h] at hc
        rcases hc with hc | hc
        · subst hc; exact hd
        · exact hds c hc
      · simp [Nat.toDigitsCore, h] at hc
        refine ih (n / 10) (Nat.digitChar (n % 10) :: ds) ?_ c hc
        intro c' hc'
        rcases List.mem_cons.mp hc' with h' | h'
        · subst h'; exact hd
        · exact hds c' h'

/-- Every character of `Nat.repr` is a decimal digit. -/
theorem repr_digits (n : Nat) : ∀ c ∈ (Nat.repr n).data, c ∈ decDigitChars := by
  intro c hc
  have : (Nat.repr n).data = Nat.toDigitsCore 10 (n + 1) n [] := rfl
  rw [this] at hc
  exact toDigitsCore_subset (n + 1) n [] (by simp) c hc

/-- Characters of a list included in an alphabet avoiding `a` occur zero
times. -/
theorem count_eq_zero_of_subset {l S : List Char}
    (hsub : ∀ c ∈ l, c ∈ S) {a : Char} (ha : a ∉ S) : l.count a = 0 :=
  List.count_eq_zero.mpr (fun hmem => ha (hsub a hmem))

/-- Character decomposition of an emitted line. -/
theorem as_csv_data (r s : Nat) (pubkey : List Byte) (txid : String)
    (mh : String) (bt : Nat) :
    (EvaluatedTxIn.as_csv r s pubkey txid mh bt).data =
      (scalar_hex r).data ++ [';'] ++ (scalar_hex s).data ++ [';'] ++
        (arr_to_hex pubkey).data ++ [';'] ++ txid.data ++ [';'] ++
        mh.data ++ [';'] ++ (Nat.repr bt).data ++ ['\n'] := by
  simp [EvaluatedTxIn.as_csv, String.data_append]

/-- Well-formedness of an emitted record's line, as claim C7 words it: the
six fields in order separated by `;` and terminated by `\n`; `r` and `s` in
fixed-width 64-character lowercase hex; pubkey and message hash lowercase
hex; the txid the display-order hex of the source transaction's hash; the
timestamp the decimal of the source block's timestamp. -/
def recordWellFormatted (blocks : List Block) (rec : SigRecord) : Prop :=
  rec.to_line =
    scalar_hex rec.r ++ ";" ++ scalar_hex rec.s ++ ";" ++
      arr_to_hex rec.pubkey ++ ";" ++ rec.txid ++ ";" ++ rec.message_hash ++
      ";" ++ Nat.repr rec.block_time ++ "\n" ∧
  (scalar_hex rec.r).length = 64 ∧ (scalar_hex rec.s).length = 64 ∧
  (∀ c ∈ (scalar_hex rec.r).data, c ∈ hexDigitChars) ∧
  (∀ c ∈ (scalar_hex rec.s).data, c ∈ hexDigitChars) ∧
  (∀ c ∈ (arr_to_hex rec.pubkey).data, c ∈ hexDigitChars) ∧
  (∀ c ∈ rec.txid.data, c ∈ hexDigitChars) ∧
  (∀ c ∈ rec.message_hash.data, c ∈ hexDigitChars) ∧
  (∀ c ∈ (Nat.repr rec.block_time).data, c ∈ decDigitChars) ∧
  (∃ blk ∈ blocks, ∃ tx ∈ blk.txs,
    rec.txid = arr_to_hex_swapped tx.hash ∧
    rec.block_time = blk.header.value.timestamp) ∧
  rec.to_line.data.count ';' = 5 ∧
  rec.to_line.data.count '\n' = 1 ∧
  rec.to_line.data.getLast? = some '\n'

/-- A record whose fields have the emitted shapes renders to a
well-formatted line. -/
theorem recordWellFormatted_of_shape (blocks : List Block) (r s : Nat)
    (pk txhash mhbytes : List Byte) (bt : Nat)
    (hsrc : ∃ blk ∈ blocks, ∃ tx ∈ blk.txs,
      arr_to_hex_swapped txhash = arr_to_hex_swapped tx.hash ∧
      bt = blk.header.value.timestamp) :
    recordWellFormatted blocks
      ⟨r, s, pk, arr_to_hex_swapped txhash, arr_to_hex mhbytes, bt⟩ := by
  have hns : (';' : Char) ∉ hexDigitChars := by decide
  have hnn : ('\n' : Char) ∉ hexDigitChars := by decide
  have hds : (';' : Char) ∉ decDigitChars := by decide
  have hdn : ('\n' : Char) ∉ decDigitChars := by decide
  have hcs1 : ([';'] : List Char).count ';' = 1 := by decide
  have hcs2 : (['\n'] : List Char).count ';' = 0 := by decide
  have hcn1 : ([';'] : List Char).count '\n' = 0 := by decide
  have hcn2 : (['\n'] : List Char).count '\n' = 1 := by decide
  have es1 : List.count ';' (scalar_hex r).data = 0 :=
    count_eq_zero_of_subset (hexCharsOf_subset _) hns
  have es2 : List.count ';' (scalar_hex s).data = 0 :=
    count_eq_zero_of_subset (hexCharsOf_subset _) hns
  have es3 : List.count ';' (arr_to_hex pk).data = 0 :=
    count_eq_zero_of_subset (hexCharsOf_subset _) hns
  have es4 : List.count ';' (arr_to_hex_swapped txhash).data = 0 :=
    count_eq_zero_of_subset (hexCharsOf_subset _) hns
  have es5 : List.count ';' (arr_to_hex mhbytes).data = 0 :=
    count_eq_zero_of_subset (hexCharsOf_subset _) hns
  have es6 : List.count ';' (Nat.repr bt).data = 0 :=
    count_eq_zero_of_subset (repr_digits _) hds
  have en1 : List.count '\n' (scalar_hex r).data = 0 :=
    count_eq_zero_of_subset (hexCharsOf_subset _) hnn
  have en2 : List.count '\n' (scalar_hex s).data = 0 :=
    count_eq_zero_of_subset (hexCharsOf_subset _) hnn
  have en3 : List.count '\n' (arr_to_hex pk).data = 0 :=
    count_eq_zero_of_subset (hexCharsOf_subset _) hnn
  have en4 : List.count '\n' (arr_to_hex_swapped txhash).data = 0 :=
    count_eq_zero_of_subset (hexCharsOf_subset _) hnn
  have en5 : List.count '\n' (arr_to_hex mhbytes).data = 0 :=
    count_eq_zero_of_subset (hexCharsOf_subset _) hnn
  have en6 : List.count '\n' (Nat.repr bt).data = 0 :=
    count_eq_zero_of_subset (repr_digits _) hdn
  have hsemi : (EvaluatedTxIn.as_csv r s pk (arr_to_hex_swapped txhash)
      (arr_to_hex mhbytes) bt).data.count ';' = 5 := by
    rw [as_csv_data]
    simp only [List.count_append, hcs1, hcs2, es1, es2, es3, es4, es5, es6]
  have hnl : (EvaluatedTxIn.as_csv r s pk (arr_to_hex_swapped txhash)
      (arr_to_hex mhbytes) bt).data.count '\n' = 1 := by
    rw [as_csv_data]
    simp only [List.count_append, hcn1, hcn2, en1, en2, en3, en4, en5, en6]
  have hlast : (EvaluatedTxIn.as_csv r s pk (arr_to_hex_swapped txhash)
      (arr_to_hex mhbytes) bt).data.getLast? = some '\n' := by
    rw [as_csv_data]
    exact List.getLast?_concat _
  exact ⟨rfl, scalar_hex_length _, scalar_hex_length _, hexCharsOf_subset _,
    hexCharsOf_subset _, hexCharsOf_subset _, hexCharsOf_subset _,
    hexCharsOf_subset _, repr_digits _, hsrc, hsemi, hnl, hlast⟩

/-- Claim C7: every emitted record is one line of exactly six
semicolon-separated fields terminated by a newline, in the order r, s,
pubkey, txid, message hash, block timestamp, with r and s in fixed-width
lowercase hex preserving leading zero bytes, pubkey and message hash in
lowercase hex, the txid in lowercase display-order hex, and the timestamp
in decimal. -/
theorem c7_record_format (db : String → Option (List (List Byte)))
    (parse : List Byte → Option (Nat × Nat)) (blocks : List Block)
    (recs : List SigRecord) (rec : SigRecord)
    (h : processBlocks db parse blocks = some recs) (hm : rec ∈ recs) :
    recordWellFormatted blocks rec := by
  obtain ⟨blk, hblk, tx, htx, i, inp, sig, pubkey, subscript, ht, _, _, _,
    hrec⟩ := processBlocks_record_shape db parse blocks recs h rec hm
  rw [hrec]
  exact recordWellFormatted_of_shape blocks rec.r rec.s pubkey tx.hash
    (sha256 (sha256 (tbsMessage tx.value i subscript ht)))
    blk.header.value.timestamp ⟨blk, hblk, tx, htx, rfl, rfl⟩

/-- Witness for `c7_record_format`: the record of the fixture run. -/
theorem c7_record_format_witness : recordWellFormatted [blockA] recA :=
  c7_record_format dbNone parse0 [blockA] [recA] recA rfl (by simp)

end EcdsaDump
